import Mathlib

/-!
Verification of the view-rendering pipeline, translator, and migration
runner of the `bow` web library (Go), via a shallow embedding in Lean.

Go maps are modelled as association lists with key-unique update
(`mapInsert`); Go map iteration is modelled as list-order iteration
(deterministic refinement of the unspecified Go order — all settled
properties are order-independent or concern single-entry maps).
Paths handled by the library are clean slash-separated relative paths,
so `filepath.Clean` is the identity on them and is omitted.

String computations are carried out on `List Char` (the `.data` of a
`String`) so that every definition reduces inside the kernel; the
functions named after Go library functions state which Go function they
embed.
-/

/-- Association-list lookup, models reading a Go map (`m[k]`). -/
def mapLookup (m : List (String × α)) (k : String) : Option α :=
  match m with
  | [] => none
  | (k', v) :: rest => if k' = k then some v else mapLookup rest k

/-- Association-list update, models a Go map assignment (`m[k] = v`):
replaces the binding when the key is present, else appends it. -/
def mapInsert (m : List (String × α)) (k : String) (v : α) : List (String × α) :=
  match m with
  | [] => [(k, v)]
  | (k', v') :: rest => if k' = k then (k, v) :: rest else (k', v') :: mapInsert rest k v

/-- Splits a character list on a separator character; models Go
`strings.Split` (always at least one, possibly empty, piece). -/
def splitOnC (c : Char) : List Char → List (List Char)
  | [] => [[]]
  | x :: xs =>
    let r := splitOnC c xs
    if x = c then [] :: r
    else
      match r with
      | [] => [[x]]
      | y :: ys => (x :: y) :: ys

/-- Joins pieces with a separator list; models Go `strings.Join`. -/
def joinWithC (sep : List Char) : List (List Char) → List Char
  | [] => []
  | [p] => p
  | p :: ps => p ++ sep ++ joinWithC sep ps

/-- Models Go `filepath.Join` on clean relative components: empty
components are skipped and the rest are joined with a slash. -/
def joinPathC (parts : List (List Char)) : List Char :=
  joinWithC ['/'] (parts.filter (fun p => p ≠ []))

/-- Models Go `filepath.Base` for a clean relative path: the final
slash-separated element. -/
def baseNameC (path : List Char) : List Char :=
  (splitOnC '/' path).getLastD path

/-- Models Go `filepath.Ext`: the suffix starting at the final dot of the
final element, empty when that element has no dot. -/
def extOfC (name : List Char) : List Char :=
  let parts := splitOnC '.' name
  if parts.length ≤ 1 then [] else '.' :: parts.getLastD []

/-- Models Go `strings.TrimSuffix`. -/
def trimSuffixC (s suffix : List Char) : List Char :=
  if suffix ≠ [] ∧ suffix.isSuffixOf s then s.take (s.length - suffix.length) else s

/-- Models Go `filepath.Dir` for a clean relative path: all elements but
the last joined by a slash, or "." when there is a single element. -/
def dirNameC (path : List Char) : List Char :=
  let parts := splitOnC '/' path
  if parts.length ≤ 1 then ['.'] else joinPathC parts.dropLast

/-- Embeds `templateName` (views.go) on character lists: strips the
extension, strips the leading underscore partial marker, and drops the
first (root) directory segment; the remaining directory is rejoined
with the base name. -/
def templateNameC (path : List Char) : List Char :=
  let base := baseNameC path
  let base := trimSuffixC base (extOfC base)
  let base := if base.take 1 = ['_'] then base.drop 1 else base
  let dirs := splitOnC '/' (dirNameC path)
  let dir := joinPathC (dirs.drop 1)
  joinPathC [dir, base]

/-- Embeds `templateName` (views.go) at the `String` interface. -/
def templateName (path : String) : String :=
  String.mk (templateNameC path.data)

/-- An HTTP request as far as the library observes it: its cookies, its
Accept-Language header, and the layout value attached to its context by
`WithLayout` (absent when never attached). -/
structure Req where
  cookies : List (String × String)
  acceptLanguage : String
  layoutCtx : Option String
deriving DecidableEq

/-- Embeds `WithLayout` (views.go): attaches a layout name to the
request context. -/
def withLayout (r : Req) (layout : String) : Req :=
  { r with layoutCtx := some layout }

/-- A value stored in a template function table. Go stores opaque
callables; the embedding distinguishes the three ways the library
produces them: the no-op placeholder registered by `ReqFuncs`, a named
static function, and the result of applying a named request-bound
factory to a request. -/
inductive FuncVal where
  | placeholder : FuncVal
  | static : String → FuncVal
  | bound : String → Req → FuncVal
deriving DecidableEq

/-- A compiled template tree, abstracted to the set of template names it
defines (what `Template.Lookup` observes). Execution is supplied as an
oracle parameter where needed. -/
structure Tmpl where
  names : List String
deriving DecidableEq

/-- The mutable state of a `Views` engine (views.go): registered pages
and partials, the static function table `funcs`, the request-bound
table `reqFuncs` (factories named by identifier), and the `Debug`
toggle. -/
structure ViewsState where
  pages : List (String × Tmpl)
  partials : List (String × Tmpl)
  funcs : List (String × FuncVal)
  reqFuncs : List (String × String)
  debug : Bool
deriving DecidableEq

/-- Embeds `Views.Funcs` (views.go): adds each entry of the argument map
to the static function table. -/
def funcsOp (s : ViewsState) (new : List (String × FuncVal)) : ViewsState :=
  { s with funcs := new.foldl (fun fs kv => mapInsert fs kv.1 kv.2) s.funcs }

/-- Embeds `Views.ReqFuncs` (views.go): adds each entry to the
request-bound table and also registers a corresponding empty placeholder
in the static table. -/
def reqFuncsOp (s : ViewsState) (new : List (String × String)) : ViewsState :=
  new.foldl
    (fun s kv =>
      { s with
        reqFuncs := mapInsert s.reqFuncs kv.1 kv.2
        funcs := mapInsert s.funcs kv.1 FuncVal.placeholder })
    s

/-- Embeds the loop body of option `WithReqFuncs` (core.go): assigns each
entry directly into the request-bound table, with no write to the static
table. -/
def withReqFuncsOp (s : ViewsState) (new : List (String × String)) : ViewsState :=
  { s with reqFuncs := new.foldl (fun m kv => mapInsert m kv.1 kv.2) s.reqFuncs }

/-- The empty views state produced by the `Views` literal inside
`NewViews`, before the two registration calls. -/
def emptyViews : ViewsState :=
  { pages := [], partials := [], funcs := [], reqFuncs := [], debug := false }

/-- Embeds `NewViews` (views.go): registers the static helper `safe`,
then the request-bound helper named "partial" through `ReqFuncs`. -/
def newViews : ViewsState :=
  reqFuncsOp (funcsOp emptyViews [("safe", FuncVal.static "safe")]) [("partial", "partial")]

/-- Invariant of the claim: every name registered in the request-bound
table also has an entry in the static table. -/
def reqCovered (s : ViewsState) : Prop :=
  ∀ kv ∈ s.reqFuncs, (mapLookup s.funcs kv.1).isSome

instance (s : ViewsState) : Decidable (reqCovered s) :=
  List.decidableBAll _ s.reqFuncs

/-- One observable effect performed on an `http.ResponseWriter`: setting
a header, committing a status code (`WriteHeader`), or writing body
bytes. A render call is modelled as the list of these effects in
order. -/
inductive WEvent where
  | setHeader (key value : String)
  | writeStatus (code : Nat)
  | writeBody (s : String)
deriving DecidableEq

/-- Models Go `http.Error`: sets the plain-text content type and the
nosniff header, commits the status code, then writes the message
followed by a newline. -/
def httpError (code : Nat) (body : String) : List WEvent :=
  [WEvent.setHeader "Content-Type" "text/plain; charset=utf-8",
   WEvent.setHeader "X-Content-Type-Options" "nosniff",
   WEvent.writeStatus code,
   WEvent.writeBody (body ++ "\n")]

/-- Embeds `Views.ServerError` (views.go): logs the trace (logging is
not part of the response trace) and sends a 500 via `http.Error`; in
debug mode the body is the diagnostic text, otherwise the generic
status text. The `msg` argument stands for the formatted error text
(the appended Go stack trace is runtime introspection and is not
modelled). -/
def serverError (debug : Bool) (msg : String) : List WEvent :=
  if debug then httpError 500 msg else httpError 500 "Internal Server Error"

/-- Execution oracle standing for `html/template` `ExecuteTemplate`:
from the compiled tree, the entry template name, the attached function
table and the data, it produces either output text or a runtime
error. -/
def Exec (α : Type) : Type :=
  Tmpl → String → List (String × FuncVal) → α → Except String String

/-- Embeds `Views.renderTemplate` (views.go). The compiled template is
cloned (the clone of immutable tree data is the data itself here), then
for every entry `k ↦ fid` of `reqFuncs` the SHARED static table is
mutated: `views.funcs[k] = fn(r)`, modelled as binding `k` to
`FuncVal.bound fid r` in `funcs`. The resulting table is attached to
the clone and the named template is executed into a buffer; on success
the buffer contents are flushed as one body write by the caller of this
model. Returns the execution result together with the `Views` state
after the call — note that `funcs` has been reassigned. -/
def renderTemplate (exec : Exec α) (s : ViewsState) (r : Req) (tmpl : Tmpl)
    (name : String) (data : α) : Except String String × ViewsState :=
  let funcs' := s.reqFuncs.foldl (fun fs kv => mapInsert fs kv.1 (FuncVal.bound kv.2 r)) s.funcs
  (exec tmpl name funcs' data, { s with funcs := funcs' })

/-- Embeds `Views.Render` (views.go): sets the HTML content type; a name
matching a partial is rendered standalone with entry "main" and no
status write; otherwise the name must match a page, the layout is read
from the request context (default "base") and joined under "layouts/",
its presence in the page tree is checked, the status code is committed,
and only then is the layout executed. Any failure is surfaced through
`ServerError`. Returns the response trace and the final `Views`
state. -/
def render (exec : Exec α) (s : ViewsState) (r : Req) (status : Nat)
    (name : String) (data : α) : List WEvent × ViewsState :=
  let ct := [WEvent.setHeader "Content-Type" "text/html"]
  match mapLookup s.partials name with
  | some p =>
    let res := renderTemplate exec s r p "main" data
    match res.1 with
    | Except.ok out => (ct ++ [WEvent.writeBody out], res.2)
    | Except.error e => (ct ++ serverError s.debug e, res.2)
  | none =>
    match mapLookup s.pages name with
    | none => (ct ++ serverError s.debug ("view " ++ name ++ " not found"), s)
    | some view =>
      let layout :=
        match r.layoutCtx with
        | some l => String.mk (joinPathC ["layouts".data, l.data])
        | none => String.mk (joinPathC ["layouts".data, "base".data])
      if layout ∈ view.names then
        let res := renderTemplate exec s r view layout data
        match res.1 with
        | Except.ok out => (ct ++ [WEvent.writeStatus status, WEvent.writeBody out], res.2)
        | Except.error e => (ct ++ [WEvent.writeStatus status] ++ serverError s.debug e, res.2)
      else (ct ++ serverError s.debug ("layout " ++ layout ++ " not found"), s)

/-- Models the escaping `html/template` applies to a plain string
interpolated inside a double-quoted attribute: the five characters
special to HTML are replaced by entities. -/
def escapeAttrC : List Char → List Char
  | [] => []
  | c :: cs =>
    (if c = '&' then "&amp;".data
     else if c = '<' then "&lt;".data
     else if c = '>' then "&gt;".data
     else if c = Char.ofNat 34 then "&#34;".data
     else if c = Char.ofNat 39 then "&#39;".data
     else [c]) ++ escapeAttrC cs

/-- The output of executing the fixed turbo-stream wrapper template of
`RenderStream` (stream.go) at the given action, target and
already-rendered content: action and target are interpolated in
attribute position (escaped), the content is `template.HTML` and passes
through verbatim. -/
def streamEnvelope (action target content : String) : String :=
  "<turbo-stream action=\"" ++ String.mk (escapeAttrC action.data) ++
    "\" target=\"" ++ String.mk (escapeAttrC target.data) ++
    "\">\n  <template>\n    " ++ content ++ "\n  </template>\n</turbo-stream>"

/-- Modelled from the spec: `renderWithFuncs`, called by `RenderStream`
(stream.go), is not among the provided sources; per the contract of
function injection (§4.3) and buffered execution (§4.2), it merges the
request-bound helpers and executes the named template into a buffer —
the same semantics as `renderTemplate`. -/
def renderWithFuncs (exec : Exec α) (s : ViewsState) (r : Req) (tmpl : Tmpl)
    (name : String) (data : α) : Except String String × ViewsState :=
  renderTemplate exec s r tmpl name data

/-- Embeds `Views.RenderStream` (stream.go): sets the turbo-stream
content type; for any action other than "remove" the named partial is
looked up and rendered into the buffer (a missing partial or a failed
render surfaces through `ServerError`); for "remove" the buffer stays
empty and no lookup happens. The buffer is wrapped in the stream
envelope and written. The final buffered write (`renderBuffered`, not
among the provided sources) is modelled from the spec as a single body
write of the envelope. -/
def renderStream (exec : Exec α) (s : ViewsState) (action : String) (target : String)
    (r : Req) (name : String) (data : α) : List WEvent × ViewsState :=
  let ct := [WEvent.setHeader "Content-Type" "text/vnd.turbo-stream.html"]
  if action ≠ "remove" then
    match mapLookup s.partials name with
    | none => (ct ++ serverError s.debug ("partial " ++ name ++ " not found"), s)
    | some p =>
      let res := renderWithFuncs exec s r p name data
      match res.1 with
      | Except.ok out => (ct ++ [WEvent.writeBody (streamEnvelope action target out)], res.2)
      | Except.error e => (ct ++ serverError s.debug e, res.2)
  else
    (ct ++ [WEvent.writeBody (streamEnvelope action target "")], s)

/-- Matching of the fixed Go regexp `(^|[^%])%([^%]|$)` (the placeholder
pattern of translator.go, with `placeholder = "%"`) anchored at the head
of `cs`; `atStart` enables the `^` alternative. Returns the matched text
(`g1 ++ "%" ++ g2`) and the rest, following leftmost-first alternation
preference. -/
def phMatchAt (atStart : Bool) (cs : List Char) : Option (List Char × List Char) :=
  match cs with
  | [] => none
  | c :: rest =>
    if atStart ∧ c = '%' then
      match rest with
      | [] => some ([c], [])
      | d :: rest2 => if d ≠ '%' then some ([c, d], rest2) else none
    else if c ≠ '%' then
      match rest with
      | '%' :: rest2 =>
        match rest2 with
        | [] => some ([c, '%'], [])
        | e :: rest3 => if e ≠ '%' then some ([c, '%', e], rest3) else none
      | _ => none
    else none

/-- Models Go `regexp.MatchString` for the placeholder pattern:
whether a match exists at any position. -/
def phHasMatch (atStart : Bool) (cs : List Char) : Bool :=
  match phMatchAt atStart cs with
  | some _ => true
  | none =>
    match cs with
    | [] => false
    | _ :: rest => phHasMatch false rest

/-- Models Go `ReplaceAllStringFunc` for the placeholder pattern: each
non-overlapping leftmost match is replaced by `f` applied to the match
and the 1-based match counter (the counter models the closure variable
`i` of parseIndex). The fuel argument only bounds the recursion and is
never exhausted when it starts at the input length, since every step
consumes at least one character. -/
def phReplaceFuel (f : List Char → Nat → List Char) :
    Nat → Bool → Nat → List Char → List Char
  | 0, _, _, cs => cs
  | fuel + 1, atStart, i, cs =>
    match phMatchAt atStart cs with
    | some mr => f mr.1 (i + 1) ++ phReplaceFuel f fuel false (i + 1) mr.2
    | none =>
      match cs with
      | [] => []
      | c :: rest => c :: phReplaceFuel f fuel false i rest

/-- Models Go `ReplaceAllStringFunc` for the placeholder pattern at the
top level (match counter starting at 0, start-of-text anchored
allowed). -/
def phReplaceGo (f : List Char → Nat → List Char) (cs : List Char) : List Char :=
  phReplaceFuel f cs.length true 0 cs

/-- Replaces the single placeholder character of a matched chunk
(`g1 ++ "%" ++ g2`, where g1 and g2 are placeholder-free) by the given
text; both replacement templates of parseIndex (`${1}(.+)${2}` for keys
and `${i}` insertion for values) reduce to this on such chunks. -/
def fillPH (repl : List Char) (m : List Char) : List Char :=
  m.foldr (fun c acc => (if c = '%' then repl else [c]) ++ acc) []

/-- The regex key minted by parseIndex (translator.go) for a source
phrase: every placeholder match becomes a `(.+)` capture group. -/
def phKey (cs : List Char) : List Char :=
  phReplaceGo (fun m _ => fillPH "(.+)".data m) cs

/-- The replacement value minted by parseIndex (translator.go) for a
target phrase: the placeholder of the i-th match becomes a positional
reference `${i}`. -/
def phVal (cs : List Char) : List Char :=
  phReplaceGo
    (fun m i => fillPH ('$' :: Char.ofNat 123 :: (Nat.toDigits 10 i ++ [Char.ofNat 125])) m)
    cs

/-- The two per-locale indexes built by parseIndex: the exact-match
index and the pattern index. -/
structure TrIndex where
  idx : List (String × String)
  regIdx : List (String × String)
deriving DecidableEq

/-- Embeds the record loop of `parseIndex` (translator.go) over
already-decoded two-field CSV records (CSV decoding is file I/O and is
not modelled): a record whose source phrase has no placeholder goes to
the exact index; otherwise the minted regex key and replacement go to
the pattern index. -/
def parseIndexLines (lines : List (String × String)) : TrIndex :=
  lines.foldl
    (fun t kv =>
      if phHasMatch true kv.1.data then
        { t with regIdx := mapInsert t.regIdx (String.mk (phKey kv.1.data)) (String.mk (phVal kv.2.data)) }
      else { t with idx := mapInsert t.idx kv.1 kv.2 })
    ⟨[], []⟩

/-- Structure of a compiled pattern-index key: literal text alternating
with `(.+)` capture groups. -/
inductive Seg where
  | lit : List Char → Seg
  | grp : Seg
deriving DecidableEq

/-- Interprets a pattern-index key (as minted by `phKey`) as its
compiled structure, splitting on the `(.+)` group markers. Keys minted
from metacharacter-free source phrases — the regime of every stated
property — contain no other regexp syntax. -/
def compileKey : List Char → List Seg
  | [] => []
  | '(' :: '.' :: '+' :: ')' :: rest => Seg.grp :: compileKey rest
  | c :: rest =>
    match compileKey rest with
    | Seg.lit l :: ss => Seg.lit (c :: l) :: ss
    | ss => Seg.lit [c] :: ss

/-- Structure of a compiled replacement template: literal text and
positional capture references. -/
inductive TPart where
  | lit : List Char → TPart
  | ref : Nat → TPart
deriving DecidableEq

/-- Longest prefix of decimal digits and the rest. -/
def takeDigits : List Char → List Char × List Char
  | [] => ([], [])
  | c :: cs =>
    if c.isDigit then
      let dr := takeDigits cs
      (c :: dr.1, dr.2)
    else ([], c :: cs)

/-- Numeric value of a digit list. -/
def digitsToNat (ds : List Char) : Nat :=
  ds.foldl (fun n c => n * 10 + (c.toNat - 48)) 0

/-- Recognises a leading `${digits}` reference: its value and the rest
of the input. -/
def refHead (cs : List Char) : Option (Nat × List Char) :=
  match cs with
  | '$' :: b :: rest2 =>
    if b = Char.ofNat 123 then
      let dr := takeDigits rest2
      if dr.1 ≠ [] ∧ dr.2.take 1 = [Char.ofNat 125] then
        some (digitsToNat dr.1, dr.2.drop 1)
      else none
    else none
  | _ => none

/-- Interprets a replacement value (as minted by `phVal`) as its
compiled structure: `${i}` becomes a positional reference, the rest is
literal — the semantics Go's `Regexp.Expand` gives such templates
during `ReplaceAllString`. The fuel argument only bounds the recursion
and is never exhausted when it starts at the input length, since every
step consumes at least one character. -/
def compileTmplFuel : Nat → List Char → List TPart
  | 0, _ => []
  | fuel + 1, cs =>
    match refHead cs with
    | some nr => TPart.ref nr.1 :: compileTmplFuel fuel nr.2
    | none =>
      match cs with
      | [] => []
      | c :: rest =>
        match compileTmplFuel fuel rest with
        | TPart.lit l :: ps => TPart.lit (c :: l) :: ps
        | ps => TPart.lit [c] :: ps

/-- Interprets a replacement value as its compiled structure. -/
def compileTmpl (cs : List Char) : List TPart :=
  compileTmplFuel cs.length cs

/-- Expands a compiled replacement template with the given captures
(1-based references; out-of-range references expand to nothing, as in
Go). -/
def expandTmpl (ps : List TPart) (caps : List (List Char)) : List Char :=
  ps.foldr
    (fun p acc =>
      (match p with
       | TPart.lit l => l
       | TPart.ref n => caps.getD (n - 1) []) ++ acc)
    []

/-- Matches a compiled key anchored at the head of `cs` with Go
leftmost-first semantics: literals match exactly, `(.+)` is greedy
(longest capture first) with backtracking. Returns the captures in
order and the unmatched rest. -/
def matchSegs : List Seg → List Char → Option (List (List Char) × List Char)
  | [], cs => some ([], cs)
  | Seg.lit l :: ps, cs =>
    if l.isPrefixOf cs then matchSegs ps (cs.drop l.length) else none
  | Seg.grp :: ps, cs =>
    ((List.range cs.length).reverse.map (· + 1)).findSome?
      (fun n =>
        match matchSegs ps (cs.drop n) with
        | some cr => some ((cs.take n) :: cr.1, cr.2)
        | none => none)

/-- Models Go `Regexp.MatchString` for a compiled key: unanchored,
tries every start position left to right. -/
def regMatches (segs : List Seg) (cs : List Char) : Bool :=
  match matchSegs segs cs with
  | some _ => true
  | none =>
    match cs with
    | [] => false
    | _ :: rest => regMatches segs rest

/-- Models Go `Regexp.ReplaceAllString` for a compiled key: each
non-overlapping leftmost match is replaced by the expanded template,
scanning resumes after the match. The fuel argument only bounds the
recursion and is never exhausted when it starts at the input length,
since keys minted by parseIndex contain a capture group and every match
consumes at least one character. -/
def regReplaceFuel (segs : List Seg) (tps : List TPart) : Nat → List Char → List Char
  | 0, cs => cs
  | fuel + 1, cs =>
    match matchSegs segs cs with
    | some cr => expandTmpl tps cr.1 ++ regReplaceFuel segs tps fuel cr.2
    | none =>
      match cs with
      | [] => []
      | c :: rest => c :: regReplaceFuel segs tps fuel rest

/-- Models Go `Regexp.ReplaceAllString` for a compiled key at the top
level. -/
def regReplaceAll (segs : List Seg) (tps : List TPart) (cs : List Char) : List Char :=
  regReplaceFuel segs tps cs.length cs

/-- The state of a `Translator` (translator.go): the known locales and
the per-locale exact and pattern indexes. -/
structure Translator where
  locales : List String
  dict : List (String × List (String × String))
  regDict : List (String × List (String × String))
deriving DecidableEq

/-- Embeds `Translator.Translate` (translator.go): the default locale
returns the message unchanged; an unknown locale returns it unchanged;
otherwise the exact index is consulted first, then every pattern-index
entry is tried in turn, the last matching entry's replacement winning;
a final empty result falls back to the original message. (Named with
the `Translator` prefix because the bare source name collides with a
library name.) -/
def Translator.translate (tr : Translator) (msg : String) (locale : String) : String :=
  if locale = "en_US" then msg
  else
    match mapLookup tr.dict locale with
    | none => msg
    | some idx =>
      match mapLookup idx msg with
      | some out => out
      | none =>
        let entries := (mapLookup tr.regDict locale).getD []
        let out := entries.foldl
          (fun out kv =>
            if regMatches (compileKey kv.1.data) msg.data then
              String.mk (regReplaceAll (compileKey kv.1.data) (compileTmpl kv.2.data) msg.data)
            else out)
          ""
        if out ≠ "" then out else msg

/-- The translator state after `Translator.Parse` registers a single
locale from one record list (locale-name validation passes for names
matching `[a-z]{2}_[A-Z]{2}`). -/
def singleLocaleTranslator (locale : String) (lines : List (String × String)) : Translator :=
  let t := parseIndexLines lines
  { locales := [locale], dict := [(locale, t.idx)], regDict := [(locale, t.regIdx)] }

/-- Models Go `strings.TrimSpace`: drops whitespace from both ends. -/
def trimSpaceC (s : List Char) : List Char :=
  ((s.dropWhile Char.isWhitespace).reverse.dropWhile Char.isWhitespace).reverse

/-- Embeds `split` (translator.go): splits at the first occurrence of
`c` into a trimmed head and tail, the whole trimmed string with an
empty tail when `c` is absent. -/
def splitGo (s : List Char) (c : Char) : List Char × List Char :=
  match s.findIdx? (· = c) with
  | some i => (trimSpaceC (s.take i), trimSpaceC (s.drop (i + 1)))
  | none => (trimSpaceC s, [])

/-- Embeds `consume` (translator.go): removes a leading token `c` and
trims the rest; empty on failure. -/
def consumeGo (s : List Char) (c : Char) : List Char :=
  match s with
  | [] => []
  | x :: rest => if x = c then trimSpaceC rest else []

/-- A quality weight as the exact decimal `num / 10 ^ exp`. Exact
decimal comparison stands in for float32 comparison and agrees with it
on the short decimals quality weights take. -/
structure Wt where
  num : Int
  exp : Nat
deriving DecidableEq

/-- Powers of ten as integers. -/
def pow10 : Nat → Int
  | 0 => 1
  | n + 1 => 10 * pow10 n

/-- Decimal comparison of weights. -/
def wtLe (a b : Wt) : Bool :=
  decide (a.num * pow10 b.exp ≤ b.num * pow10 a.exp)

/-- The weight value one (an absent quality weight). -/
def wtOne : Wt := ⟨1, 0⟩

/-- Models `strconv.ParseFloat` on the plain decimal forms quality
weights take in Accept-Language headers: optional sign, integer digits,
optional fraction, at least one digit. (Exponent, hex and inf/NaN forms
accepted by Go do not occur in such headers and are not modelled.) -/
def parseQ (s : List Char) : Option Wt :=
  let st : Int × List Char :=
    match s with
    | '+' :: t => (1, t)
    | '-' :: t => (-1, t)
    | t => (1, t)
  let ip := takeDigits st.2
  match ip.2 with
  | [] => if ip.1 = [] then none else some ⟨st.1 * digitsToNat ip.1, 0⟩
  | '.' :: frac =>
    let fp := takeDigits frac
    if fp.2 = [] ∧ (ip.1 ≠ [] ∨ fp.1 ≠ []) then
      some ⟨st.1 * ((digitsToNat ip.1 : Int) * pow10 fp.1.length + (digitsToNat fp.1 : Int)),
        fp.1.length⟩
    else none
  | _ => none

/-- Embeds the entry loop of `parseAcceptLanguage` (translator.go):
produces the language and weight slices in order. An absent weight
counts 1; a weight failing to parse fails the whole call; a weight of
at most 0 skips the weight append ONLY — the language was already
appended, exactly as in the source. The fuel argument only bounds the
recursion and is never exhausted when it starts above the input length,
since every iteration consumes at least one character or ends the
loop. -/
def parseALFuel : Nat → List Char → Option (List (List Char) × List Wt)
  | 0, _ => some ([], [])
  | fuel + 1, s =>
    if s = [] then some ([], [])
    else
      let et := splitGo s ','
      match parseALFuel fuel et.2 with
      | none => none
      | some lr =>
        if et.1 = [] then some lr
        else
          let lw := splitGo et.1 ';'
          if lw.2 = [] then some (lw.1 :: lr.1, wtOne :: lr.2)
          else
            match parseQ (consumeGo (consumeGo lw.2 'q') '=') with
            | none => none
            | some w =>
              if wtLe w ⟨0, 0⟩ then some (lw.1 :: lr.1, lr.2)
              else some (lw.1 :: lr.1, w :: lr.2)

/-- Stable insertion keeping earlier entries before equal-weight later
ones. -/
def insertDescQ (p : List Char × Wt) : List (List Char × Wt) → List (List Char × Wt)
  | [] => [p]
  | x :: xs => if wtLe x.2 p.2 then p :: x :: xs else x :: insertDescQ p xs

/-- The unique stable descending-weight order `sort.Stable` produces
with `Less i j = q[i] > q[j]` (qSort, translator.go). -/
def sortDescQ : List (List Char × Wt) → List (List Char × Wt)
  | [] => []
  | x :: xs => insertDescQ x (sortDescQ xs)

/-- Embeds `parseAcceptLanguage` (translator.go) as observed by
`ReqLocale`: the language list after the qSort stable sort; `none`
models the error return on a malformed weight. The source appends a
language before validating its weight but skips the weight append for a
dropped (quality at most 0) entry, so `langs` can outrun `q`;
`sort.Stable` reorders only the first `len(q)` entries of both
slices. -/
def parseAcceptLanguage (s : List Char) : Option (List (List Char)) :=
  match parseALFuel (s.length + 1) s with
  | none => none
  | some lq =>
    let n := lq.2.length
    let sorted := sortDescQ (List.zip (lq.1.take n) lq.2)
    some (sorted.map (·.1) ++ lq.1.drop n)

/-- Embeds `Translator.localeFromLang` (translator.go): the first known
locale whose language part matches (map iteration modelled in list
order; every property settled here has a unique match). -/
def localeFromLang (tr : Translator) (lang : String) : Option String :=
  tr.locales.find? (fun loc => (lang.data ++ ['_']).isPrefixOf loc.data)

/-- Models `Request.Cookie`: the first cookie with the given name,
absent means the error return. -/
def getCookie (r : Req) (name : String) : Option String :=
  mapLookup r.cookies name

/-- Embeds `Translator.ReqLocale` (translator.go): a "lang" cookie
naming a known locale wins; else a cookie language resolving through
`localeFromLang` wins; else the parsed Accept-Language list is tried
entry by entry the same two-step way; else the default locale. -/
def Translator.reqLocale (tr : Translator) (r : Req) : String :=
  let fromHeader :=
    match parseAcceptLanguage r.acceptLanguage.data with
    | none => "en_US"
    | some langs =>
      (langs.findSome? fun lang =>
        if String.mk lang ∈ tr.locales then some (String.mk lang)
        else localeFromLang tr (String.mk lang)).getD "en_US"
  match getCookie r "lang" with
  | some v =>
    if v ∈ tr.locales then v
    else
      match localeFromLang tr v with
      | some loc => loc
      | none => fromHeader
  | none => fromHeader

/-- Whether a name matches the `fs.Glob` pattern "migrations/*.sql":
the star spans non-separator characters only. -/
def isMigrationName (s : List Char) : Bool :=
  "migrations/".data.isPrefixOf s && ".sql".data.isSuffixOf s &&
    decide (15 ≤ s.length) && !(((s.drop 11).take (s.length - 15)).contains '/')

/-- Lexicographic order on names as Go `sort.Strings` orders them
(UTF-8 byte order coincides with code-point order). -/
def lexLt : List Char → List Char → Bool
  | [], [] => false
  | [], _ :: _ => true
  | _ :: _, [] => false
  | a :: as, b :: bs => if a = b then lexLt as bs else decide (a < b)

/-- Insertion step of the name sort. -/
def insertName (x : String) : List String → List String
  | [] => [x]
  | y :: ys => if lexLt x.data y.data then x :: y :: ys else y :: insertName x ys

/-- Models `sort.Strings`: ascending lexicographic order (equal strings
are identical, so any correct sort yields this list). -/
def sortNames : List String → List String
  | [] => []
  | x :: xs => insertName x (sortNames xs)

/-- The observable database state for the migration runner: the
contents of the `migrations` bookkeeping table, and the log of executed
migration scripts (by file name, in execution order) standing for the
cumulative effect of their SQL. -/
structure DBState where
  applied : List String
  log : List String
deriving DecidableEq

/-- Embeds `DB.migrateFile` (db source file): inside one transaction,
skip — roll back, state unchanged — when the name is recorded in the
migrations table; else read the file, execute its SQL (`sqlFails`
abstracts the SQL engine's verdict on the script), record the name and
commit. `none` models the error return, after which the deferred
rollback leaves the state unchanged. -/
def migrateFile (sqlFails : String → Bool) (fsys : List (String × String))
    (st : DBState) (name : String) : Option DBState :=
  if name ∈ st.applied then some st
  else
    match mapLookup fsys name with
    | none => none
    | some content =>
      if sqlFails content then none
      else some { applied := st.applied ++ [name], log := st.log ++ [name] }

/-- Embeds the `fs.Glob` call plus the `sort.Strings` call of
`DB.migrate`: migration file names in lexicographic order. -/
def globMigrations (fsys : List (String × String)) : List String :=
  sortNames ((fsys.map (·.1)).filter (fun n => isMigrationName n.data))

/-- The name loop of `DB.migrate`: applies `migrateFile` to each name
in order, stopping at the first error. -/
def migrateList (sqlFails : String → Bool) (fsys : List (String × String)) :
    List String → DBState → Option DBState
  | [], st => some st
  | n :: ns, st =>
    match migrateFile sqlFails fsys st n with
    | none => none
    | some st' => migrateList sqlFails fsys ns st'

/-- Embeds `DB.migrate` (db source file): ensures the bookkeeping table
(the `applied` field of the model state), globs and sorts the migration
files, and runs each through `migrateFile`. -/
def migrate (sqlFails : String → Bool) (fsys : List (String × String))
    (st : DBState) : Option DBState :=
  migrateList sqlFails fsys (globMigrations fsys) st

/-- The status codes committed in a response trace, in order. -/
def statusWrites (t : List WEvent) : List Nat :=
  t.foldr (fun e acc => match e with | WEvent.writeStatus c => c :: acc | _ => acc) []

/-- The body writes of a response trace, in order. -/
def bodyWrites (t : List WEvent) : List String :=
  t.foldr (fun e acc => match e with | WEvent.writeBody b => b :: acc | _ => acc) []

/-- Whether an event commits a status code. -/
def isStatusWrite : WEvent → Bool
  | WEvent.writeStatus _ => true
  | _ => false

/-- C1: function injection does NOT leave the shared `Views` state
unchanged — `renderTemplate` writes each evaluated factory into the
shared static catalog `views.funcs` itself (`views.funcs[k] = fn(r)`),
not only into a working copy attached to the per-render clone. After a
render from the stock `NewViews` state, the "partial" slot of the
shared catalog holds the request-bound callable produced for that
request instead of the placeholder it held before the call. -/
theorem c1_renderTemplate_mutates_shared_funcs :
    (renderTemplate (fun _ _ _ _ => Except.ok "") newViews
        ⟨[], "", none⟩ ⟨["main"]⟩ "main" ()).2.funcs ≠ newViews.funcs ∧
    mapLookup (renderTemplate (fun _ _ _ _ => Except.ok "") newViews
        ⟨[], "", none⟩ ⟨["main"]⟩ "main" ()).2.funcs "partial"
      = some (FuncVal.bound "partial" ⟨[], "", none⟩) ∧
    mapLookup newViews.funcs "partial" = some FuncVal.placeholder := by
  decide

/-- C2: the `WithReqFuncs` option registers a request-bound helper
without the static placeholder that `Views.ReqFuncs` writes, so the
claimed invariant — every request-bound name also has a static entry —
holds on the stock `NewViews` state but fails right after registering a
fresh name "myfn" through `WithReqFuncs`. -/
theorem c2_withReqFuncs_breaks_coverage :
    reqCovered newViews ∧ ¬ reqCovered (withReqFuncsOp newViews [("myfn", "f0")]) := by
  decide

/-- C3, counterexample: `templateName` does not drop the "layouts" path
segment — on "views/layouts/base.html" it yields "layouts/base", not
"base" as the claim states. -/
theorem c3_layouts_segment_kept :
    templateName "views/layouts/base.html" ≠ "base" ∧
    templateName "views/layouts/base.html" = "layouts/base" := by
  decide

/-- C3, amended: the transform strips the extension, strips the leading
partial marker, and strips the top-level views-root segment, but keeps
the "layouts" segment for layout files: templateName
"views/layouts/base.html" = "layouts/base" (the "layouts" segment is
re-attached by `Render` to the caller-facing layout name instead), and
templateName "views/users/_row.html" = "users/row". -/
theorem c3_template_name_transform :
    templateName "views/users/_row.html" = "users/row" ∧
    templateName "views/layouts/base.html" = "layouts/base" ∧
    templateName "views/index.html" = "index" := by
  decide

/-- C7: evaluation of `ReqLocale`. The claim's cookie scenario holds
(cookie lang=fr over locales fr_FR and en_US resolves to fr_FR without
consulting the header), but the claimed descending-quality iteration of
Accept-Language entries fails when a zero-quality entry is present: the
source appends the language BEFORE the weight check drops the weight,
misaligning the langs and q slices that qSort pairs up. With no cookie,
header "aa;q=0,bb;q=0.5,cc;q=0.9" and locales bb_BB and cc_CC, the
entries are tried in the order bb, aa, cc and the result is bb_BB,
whereas dropping the q=0 entry and descending quality order require cc
(quality 0.9) first, hence cc_CC. -/
theorem c7_reqLocale_eval :
    Translator.reqLocale ⟨["fr_FR", "en_US"], [], []⟩ ⟨[("lang", "fr")], "en;q=0.9", none⟩
      = "fr_FR" ∧
    parseAcceptLanguage "aa;q=0,bb;q=0.5,cc;q=0.9".data = some ["bb".data, "aa".data, "cc".data] ∧
    Translator.reqLocale ⟨["bb_BB", "cc_CC"], [], []⟩ ⟨[], "aa;q=0,bb;q=0.5,cc;q=0.9", none⟩
      = "bb_BB" := by
  decide

/-- C9: `RenderStream` with action "remove" performs no partial lookup
(the result does not depend on the name or on the registered partials
and the `Views` state is returned unchanged) and writes the
turbo-stream envelope with the given action and target fields wrapping
empty content, after the stream content-type header. -/
theorem c9_remove_stream (exec : Exec α) (s : ViewsState) (target : String) (r : Req)
    (name : String) (data : α) :
    renderStream exec s "remove" target r name data
      = ([WEvent.setHeader "Content-Type" "text/vnd.turbo-stream.html",
          WEvent.writeBody (streamEnvelope "remove" target "")], s) := by
  rfl

/-- C4: for a name matching neither a registered partial nor a
registered page, `Render` emits only the content-type header before the
NotFound error is signalled through `ServerError`, which commits a 500
status: the trace carries exactly one status write, 500, and no body
write precedes it. -/
theorem c4_unknown_name_not_found (exec : Exec α) (s : ViewsState) (r : Req)
    (status : Nat) (name : String) (data : α)
    (hp : mapLookup s.partials name = none) (hv : mapLookup s.pages name = none) :
    (render exec s r status name data).1
      = WEvent.setHeader "Content-Type" "text/html"
          :: serverError s.debug ("view " ++ name ++ " not found") ∧
    statusWrites (render exec s r status name data).1 = [500] ∧
    bodyWrites ((render exec s r status name data).1.takeWhile fun e => !isStatusWrite e)
      = [] := by
  have ht : (render exec s r status name data).1
      = WEvent.setHeader "Content-Type" "text/html"
          :: serverError s.debug ("view " ++ name ++ " not found") := by
    simp [render, hp, hv]
  refine ⟨ht, ?_, ?_⟩ <;> rw [ht] <;> cases s.debug <;>
    simp [serverError, httpError, statusWrites, bodyWrites, isStatusWrite]

/-- C4 witness at a concrete unknown name. -/
theorem c4_unknown_name_not_found_witness :
    (render (fun _ _ _ _ => Except.ok "") newViews ⟨[], "", none⟩ 200 "missing" ()).1
      = WEvent.setHeader "Content-Type" "text/html"
          :: serverError newViews.debug ("view " ++ "missing" ++ " not found") ∧
    statusWrites (render (fun _ _ _ _ => Except.ok "") newViews
        ⟨[], "", none⟩ 200 "missing" ()).1 = [500] ∧
    bodyWrites ((render (fun _ _ _ _ => Except.ok "") newViews
        ⟨[], "", none⟩ 200 "missing" ()).1.takeWhile fun e => !isStatusWrite e) = [] :=
  c4_unknown_name_not_found (fun _ _ _ _ => Except.ok "") newViews ⟨[], "", none⟩
    200 "missing" () (by decide) (by decide)

/-- C5: a registered page rendered with no layout override selects the
"base" layout (joined under "layouts/" in the compiled tree), commits
exactly the status code passed to `Render`, and writes as body exactly
the output of executing that layout as the entry template of the page's
tree with the merged function table (the hypothesis `hexec` states the
merged-table execution result through `renderTemplate`). -/
theorem c5_default_layout_render (exec : Exec α) (s : ViewsState) (r : Req)
    (status : Nat) (name : String) (data : α) (view : Tmpl) (out : String)
    (hp : mapLookup s.partials name = none)
    (hv : mapLookup s.pages name = some view)
    (hl : r.layoutCtx = none)
    (hin : "layouts/base" ∈ view.names)
    (hexec : (renderTemplate exec s r view "layouts/base" data).1 = Except.ok out) :
    (render exec s r status name data).1
      = [WEvent.setHeader "Content-Type" "text/html",
         WEvent.writeStatus status, WEvent.writeBody out] ∧
    statusWrites (render exec s r status name data).1 = [status] := by
  have hj : String.mk (joinPathC ["layouts".data, "base".data]) = "layouts/base" := by decide
  have ht : (render exec s r status name data).1
      = [WEvent.setHeader "Content-Type" "text/html",
         WEvent.writeStatus status, WEvent.writeBody out] := by
    simp only [render, hp, hv, hl, hj]
    rw [if_pos hin, hexec]
    rfl
  exact ⟨ht, by rw [ht]; simp [statusWrites]⟩

/-- C5 witness at a concrete page and layout tree. -/
theorem c5_default_layout_render_witness :
    (render (fun _ n _ _ => Except.ok ("OUT:" ++ n))
        { newViews with pages := [("home", ⟨["layouts/base"]⟩)] }
        ⟨[], "", none⟩ 201 "home" ()).1
      = [WEvent.setHeader "Content-Type" "text/html",
         WEvent.writeStatus 201, WEvent.writeBody "OUT:layouts/base"] ∧
    statusWrites ((render (fun _ n _ _ => Except.ok ("OUT:" ++ n))
        { newViews with pages := [("home", ⟨["layouts/base"]⟩)] }
        ⟨[], "", none⟩ 201 "home" ()).1) = [201] :=
  c5_default_layout_render (fun _ n _ _ => Except.ok ("OUT:" ++ n))
    { newViews with pages := [("home", ⟨["layouts/base"]⟩)] }
    ⟨[], "", none⟩ 201 "home" () ⟨["layouts/base"]⟩ "OUT:layouts/base"
    (by decide) (by decide) rfl (by decide) rfl

/-- C10: a name matching a registered partial is rendered without any
status write — the status argument never reaches the response (whose
status therefore stays the transport default 200), for every status
value passed. -/
theorem c10_partial_render_no_status (exec : Exec α) (s : ViewsState) (r : Req)
    (status : Nat) (name : String) (data : α) (p : Tmpl) (out : String)
    (hp : mapLookup s.partials name = some p)
    (hexec : (renderTemplate exec s r p "main" data).1 = Except.ok out) :
    (render exec s r status name data).1
      = [WEvent.setHeader "Content-Type" "text/html", WEvent.writeBody out] ∧
    statusWrites (render exec s r status name data).1 = [] := by
  have ht : (render exec s r status name data).1
      = [WEvent.setHeader "Content-Type" "text/html", WEvent.writeBody out] := by
    simp only [render, hp, hexec]
    rfl
  exact ⟨ht, by rw [ht]; simp [statusWrites]⟩

/-- C10 witness at a concrete partial and an arbitrary status value. -/
theorem c10_partial_render_no_status_witness :
    (render (fun _ n _ _ => Except.ok ("OUT:" ++ n))
        { newViews with partials := [("users/row", ⟨["main"]⟩)] }
        ⟨[], "", none⟩ 503 "users/row" ()).1
      = [WEvent.setHeader "Content-Type" "text/html", WEvent.writeBody "OUT:main"] ∧
    statusWrites ((render (fun _ n _ _ => Except.ok ("OUT:" ++ n))
        { newViews with partials := [("users/row", ⟨["main"]⟩)] }
        ⟨[], "", none⟩ 503 "users/row" ()).1) = [] :=
  c10_partial_render_no_status (fun _ n _ _ => Except.ok ("OUT:" ++ n))
    { newViews with partials := [("users/row", ⟨["main"]⟩)] }
    ⟨[], "", none⟩ 503 "users/row" () ⟨["main"]⟩ "OUT:main" (by decide) rfl

/-- Helper: a pattern-index fold over entries none of which matches the
message leaves the accumulator unchanged. -/
theorem regFold_no_match (msg : String) (entries : List (String × String)) (init : String)
    (h : ∀ kv ∈ entries, regMatches (compileKey kv.1.data) msg.data = false) :
    entries.foldl
      (fun out kv =>
        if regMatches (compileKey kv.1.data) msg.data then
          String.mk (regReplaceAll (compileKey kv.1.data) (compileTmpl kv.2.data) msg.data)
        else out)
      init = init := by
  induction entries generalizing init with
  | nil => rfl
  | cons kv rest ih =>
    have hk := h kv (List.mem_cons_self _ _)
    simp only [List.foldl_cons, hk, Bool.false_eq_true, if_false]
    exact ih init (fun x hx => h x (List.mem_cons_of_mem _ hx))

/-- C6: `Translate` returns the message unchanged whenever the locale's
exact index lacks the phrase and no pattern-index entry matches it (in
particular for any phrase without a placeholder in a locale missing the
key); and for the placeholder entry "Hello %" mapped to "Bonjour %",
translating "Hello World" into that locale yields "Bonjour World". -/
theorem c6_translate_round_trip :
    (∀ (tr : Translator) (msg locale : String),
      (∀ idx, mapLookup tr.dict locale = some idx → mapLookup idx msg = none) →
      (∀ kv ∈ (mapLookup tr.regDict locale).getD [],
        regMatches (compileKey kv.1.data) msg.data = false) →
      Translator.translate tr msg locale = msg) ∧
    Translator.translate (singleLocaleTranslator "fr_FR" [("Hello %", "Bonjour %")])
      "Hello World" "fr_FR" = "Bonjour World" := by
  constructor
  · intro tr msg locale h1 h2
    unfold Translator.translate
    by_cases hd : locale = "en_US"
    · simp [hd]
    · rw [if_neg hd]
      cases hdict : mapLookup tr.dict locale with
      | none => rfl
      | some idx =>
        have hidx := h1 idx hdict
        simp only [hidx, regFold_no_match msg _ "" h2]
        simp
  · decide

/-- C6 witness: a phrase absent from a registered locale's index comes
back unchanged. -/
theorem c6_translate_round_trip_witness :
    Translator.translate (singleLocaleTranslator "fr_FR" [("Yes", "Oui")]) "No" "fr_FR"
      = "No" :=
  c6_translate_round_trip.1 (singleLocaleTranslator "fr_FR" [("Yes", "Oui")]) "No" "fr_FR"
    (fun idx h => by
      have hcomp : mapLookup (singleLocaleTranslator "fr_FR" [("Yes", "Oui")]).dict "fr_FR"
          = some [("Yes", "Oui")] := by decide
      rw [hcomp] at h
      cases h
      decide)
    (by decide)

/-- Helper: a successful `migrateFile` keeps every applied record and
ends with its own name recorded. -/
theorem migrateFile_applied {f : String → Bool} {fsys : List (String × String)}
    {st : DBState} {name : String} {st' : DBState}
    (h : migrateFile f fsys st name = some st') :
    (∀ n, n ∈ st.applied → n ∈ st'.applied) ∧ name ∈ st'.applied := by
  unfold migrateFile at h
  by_cases ha : name ∈ st.applied
  · rw [if_pos ha] at h
    cases h
    exact ⟨fun n hn => hn, ha⟩
  · rw [if_neg ha] at h
    cases hl : mapLookup fsys name with
    | none => rw [hl] at h; cases h
    | some content =>
      rw [hl] at h
      dsimp only at h
      by_cases hf : f content = true
      · rw [if_pos hf] at h; cases h
      · rw [if_neg hf] at h
        cases h
        refine ⟨fun n hn => ?_, ?_⟩
        · simp only [List.mem_append]
          exact Or.inl hn
        · simp

/-- Helper: a successful migration run keeps every applied record and
records every processed name. -/
theorem migrateList_applied {f : String → Bool} {fsys : List (String × String)}
    {ns : List String} {st st' : DBState}
    (h : migrateList f fsys ns st = some st') :
    (∀ n, n ∈ st.applied → n ∈ st'.applied) ∧ (∀ n, n ∈ ns → n ∈ st'.applied) := by
  induction ns generalizing st with
  | nil => cases h; exact ⟨fun n hn => hn, by simp⟩
  | cons m ms ih =>
    unfold migrateList at h
    cases hm : migrateFile f fsys st m with
    | none => rw [hm] at h; cases h
    | some st1 =>
      rw [hm] at h
      obtain ⟨mono1, hmem⟩ := migrateFile_applied hm
      obtain ⟨mono2, hall⟩ := ih h
      refine ⟨fun n hn => mono2 n (mono1 n hn), fun n hn => ?_⟩
      rcases List.mem_cons.mp hn with rfl | hn
      · exact mono2 n hmem
      · exact hall n hn

/-- Helper: when every name is already recorded, the migration loop is
a no-op. -/
theorem migrateList_skip {f : String → Bool} {fsys : List (String × String)} :
    ∀ (ns : List String) (st : DBState),
      (∀ n, n ∈ ns → n ∈ st.applied) → migrateList f fsys ns st = some st := by
  intro ns
  induction ns with
  | nil => intro st _; rfl
  | cons m ms ih =>
    intro st h
    have hm : migrateFile f fsys st m = some st := by
      unfold migrateFile
      rw [if_pos (h m (List.mem_cons_self m ms))]
    unfold migrateList
    rw [hm]
    exact ih st (fun n hn => h n (List.mem_cons_of_mem _ hn))

/-- Helper: the migration loop preserves the invariant that the
execution log is duplicate-free and covered by the applied records. -/
theorem migrateList_nodup {f : String → Bool} {fsys : List (String × String)}
    {ns : List String} : ∀ {st st' : DBState},
    migrateList f fsys ns st = some st' →
    st.log.Nodup → (∀ n, n ∈ st.log → n ∈ st.applied) →
    st'.log.Nodup ∧ (∀ n, n ∈ st'.log → n ∈ st'.applied) := by
  induction ns with
  | nil =>
    intro st st' h h1 h2
    cases h
    exact ⟨h1, h2⟩
  | cons m ms ih =>
    intro st st' h h1 h2
    unfold migrateList at h
    cases hm : migrateFile f fsys st m with
    | none => rw [hm] at h; cases h
    | some st1 =>
      rw [hm] at h
      have hst1 : st1.log.Nodup ∧ (∀ n, n ∈ st1.log → n ∈ st1.applied) := by
        unfold migrateFile at hm
        by_cases hnotin : m ∈ st.applied
        · rw [if_pos hnotin] at hm
          cases hm; exact ⟨h1, h2⟩
        · rw [if_neg hnotin] at hm
          cases hl : mapLookup fsys m with
          | none => rw [hl] at hm; cases hm
          | some content =>
            rw [hl] at hm
            dsimp only at hm
            by_cases hf : f content = true
            · rw [if_pos hf] at hm; cases hm
            · rw [if_neg hf] at hm
              cases hm
              have hmlog : m ∉ st.log := fun hmem => hnotin (h2 m hmem)
              refine ⟨?_, fun n hn => ?_⟩
              · simp [List.nodup_append, h1, hmlog]
              · simp only [List.mem_append, List.mem_singleton] at hn ⊢
                rcases hn with hn | rfl
                · exact Or.inl (h2 n hn)
                · exact Or.inr rfl
      exact ih h hst1.1 hst1.2

/-- C8: migration is idempotent — a successful run records every
matching migration file, so running the step again on the resulting
database changes nothing (each per-file transaction sees its record and
skips); moreover a run from a fresh database executes each file at most
once (the execution log is duplicate-free). The lexicographic
per-file-transaction order is fixed by `migrate` itself through
`globMigrations`. -/
theorem c8_migrate_idempotent (f : String → Bool) (fsys : List (String × String))
    (st st' : DBState) (h : migrate f fsys st = some st') :
    migrate f fsys st' = some st' ∧
    (st.applied = [] → st.log = [] → st'.log.Nodup) := by
  constructor
  · unfold migrate at h ⊢
    exact migrateList_skip (globMigrations fsys) st'
      (fun n hn => (migrateList_applied h).2 n hn)
  · intro _ hl
    unfold migrate at h
    refine (migrateList_nodup h ?_ ?_).1
    · rw [hl]; exact List.nodup_nil
    · intro n hn; rw [hl] at hn; cases hn

/-- C8 witness: a concrete one-file migration applied from a fresh
database, rerun as a no-op. -/
theorem c8_migrate_idempotent_witness :
    migrate (fun _ => false) [("migrations/001_init.sql", "CREATE TABLE t (id);")]
        ⟨["migrations/001_init.sql"], ["migrations/001_init.sql"]⟩
      = some ⟨["migrations/001_init.sql"], ["migrations/001_init.sql"]⟩ ∧
    (⟨["migrations/001_init.sql"], ["migrations/001_init.sql"]⟩ : DBState).log.Nodup :=
  ⟨(c8_migrate_idempotent (fun _ => false)
      [("migrations/001_init.sql", "CREATE TABLE t (id);")] ⟨[], []⟩
      ⟨["migrations/001_init.sql"], ["migrations/001_init.sql"]⟩ (by decide)).1,
   (c8_migrate_idempotent (fun _ => false)
      [("migrations/001_init.sql", "CREATE TABLE t (id);")] ⟨[], []⟩
      ⟨["migrations/001_init.sql"], ["migrations/001_init.sql"]⟩ (by decide)).2 rfl rfl⟩
